import Mathlib

/-!
Verification of the B-tree insertion engine in `src/libcollections/btree.rs`.

The Rust source is shallowly embedded below: vectors become `List`s, the
`Option` of child vectors is kept as an `Option (List _)`, every operation
that can panic in Rust (`unwrap` on `pop`, out-of-bounds indexing,
`get_ref` on `None`) returns `none`, and the `uint` (usize) arithmetic
`min_deg * 2 - 1` is modelled with explicit wrapping modulo `2 ^ 64`.
Keys only need an `Ord` instance, exactly like the `TotalOrd` bound of the
source; all comparisons go through `compare`, mirroring `.cmp`.
-/

namespace BTreeRs

variable {K V : Type}

/-- An `Elt` contains a key-value pair (struct `Elt` in btree.rs). -/
structure Elt (K V : Type) where
  key : K
  value : V
deriving DecidableEq

/-- A node contains a vector of elements as well as children, optionally
(struct `Node` in btree.rs); `children = none` models a leaf. -/
inductive Node (K V : Type) : Type where
  | mk (elts : List (Elt K V)) (children : Option (List (Node K V))) : Node K V

/-- The `elts` field of a node. -/
def Node.elts : Node K V → List (Elt K V)
  | .mk e _ => e

/-- The `children` field of a node. -/
def Node.children : Node K V → Option (List (Node K V))
  | .mk _ c => c

/-- Shallow embedding of `Node::split_child` from btree.rs.  The source
drains the full child with `pop`/`reverse` loops: popping `n / 2` times
from a vector of length `n` and reversing yields `drop (n - n / 2)`, the
next `pop` yields the element at `n - n / 2 - 1`, and popping the rest and
reversing yields `take (n - n / 2 - 1)`; likewise for the grandchildren.
The drained original child (empty elements, and an emptied child vector if
it had one) is left in place and the two new nodes are inserted at `i` and
`i + 1`, exactly as in the source.  `none` models a panic: `get_ref` on
`children = None`, an out-of-bounds child index, `pop().unwrap()` on an
empty vector, or `Vec::insert` past the end of `elts`. -/
def Node.split_child (self : Node K V) (i ub : Nat) : Option (Node K V) :=
  match self.children with
  | none => none
  | some cs =>
    match cs.get? i with
    | none => none
    | some child =>
      if child.elts.length < ub then some self
      else
        match child.elts.get? (child.elts.length - child.elts.length / 2 - 1) with
        | none => none
        | some mid_elt =>
          if i ≤ self.elts.length then
            let new_elts_right :=
              child.elts.drop (child.elts.length - child.elts.length / 2)
            let new_elts_left :=
              child.elts.take (child.elts.length - child.elts.length / 2 - 1)
            let new_gc : Option (List (Node K V)) × Option (List (Node K V)) :=
              match child.children with
              | none => (none, none)
              | some g => (some (g.take (g.length - g.length / 2)),
                           some (g.drop (g.length - g.length / 2)))
            let new_node_left : Node K V := Node.mk new_elts_left new_gc.1
            let new_node_right : Node K V := Node.mk new_elts_right new_gc.2
            let drained : Node K V :=
              Node.mk []
                (match child.children with | none => none | some _ => some [])
            some (Node.mk (self.elts.insertIdx i mid_elt)
              (some (((cs.set i drained).insertIdx i new_node_left).insertIdx
                (i + 1) new_node_right)))
          else none

/-- The `while` loop of `Node::bsearch_node`.  On every call made by
`bsearch_node` the span `mx - mn` strictly shrinks at each iteration, so
the loop finishes within `elts.length` iterations; the fuel argument is
given `elts.length + 1` there and thus never runs out on the source's own
calls. -/
def bsearchGo [Ord K] (elts : List (Elt K V)) (k : K) :
    Nat → Nat → Nat → Nat → Option Nat
  | _, _, _, 0 => none
  | mn, mx, mid, fuel + 1 =>
    if mx > mn ∧ mn ≠ mid ∧ mx ≠ mid then
      match elts.get? mid with
      | none => none
      | some e =>
        match compare e.key k with
        | .eq => some mid
        | .lt => bsearchGo elts k mn mid ((mn + mid) / 2) fuel
        | .gt => bsearchGo elts k mid mx ((mid + mx) / 2) fuel
    else some mid

/-- Shallow embedding of `Node::bsearch_node` from btree.rs: the two early
returns on the first and last element, then the search loop started at
`min = 0`, `max = elts.len()`, `mid = max / 2`.  `none` models the panic
from indexing an empty element vector. -/
def Node.bsearch_node [Ord K] (self : Node K V) (k : K) : Option Nat :=
  match self.elts.get? 0 with
  | none => none
  | some e0 =>
    match compare e0.key k with
    | .gt => some 0
    | _ =>
      match self.elts.get? (self.elts.length - 1) with
      | none => none
      | some elast =>
        match compare elast.key k with
        | .lt => some self.elts.length
        | _ => bsearchGo self.elts k 0 self.elts.length (self.elts.length / 2)
                 (self.elts.length + 1)

/-- Shallow embedding of `Node::insert_nonfull` from btree.rs.  The fuel
argument bounds the recursion depth (the source descends one tree level
per call, so any fuel above the tree height is enough); `none` models fuel
exhaustion or a panic inside `bsearch_node` / `split_child` / indexing. -/
def Node.insert_nonfull [Ord K] :
    Nat → Node K V → K → V → Nat → Option (Node K V)
  | 0, _, _, _, _ => none
  | fuel + 1, self, k, v, ub =>
    match self.children with
    | none =>
      match self.bsearch_node k with
      | none => none
      | some index =>
        if self.elts.length ≤ index then
          some (Node.mk (self.elts ++ [⟨k, v⟩]) none)
        else
          match self.elts.get? index with
          | none => none
          | some e =>
            match compare e.key k with
            | .eq => some (Node.mk (self.elts.set index ⟨e.key, v⟩) none)
            | _ => some (Node.mk (self.elts.insertIdx index ⟨k, v⟩) none)
    | some _ =>
      match self.bsearch_node k with
      | none => none
      | some index0 =>
        match self.split_child index0 ub with
        | none => none
        | some self1 =>
          let index1 :=
            if index0 < self1.elts.length then
              match self1.elts.get? index0 with
              | some e =>
                match compare e.key k with
                | .gt => index0 + 1
                | _ => index0
              | none => index0
            else index0
          match self1.children with
          | none => none
          | some cs1 =>
            match cs1.get? index1 with
            | none => none
            | some child =>
              match Node.insert_nonfull fuel child k v ub with
              | none => none
              | some child2 =>
                some (Node.mk self1.elts (some (cs1.set index1 child2)))

/-- A B-tree contains a root node and the user-supplied minimum degree
(struct `BTree` in btree.rs). -/
structure BTree (K V : Type) where
  root : Node K V
  min_deg : Nat

/-- Shallow embedding of `BTree::new` from btree.rs: a root leaf holding
the supplied key-value pair.  The source performs no validation whatsoever
of the minimum degree. -/
def BTree.new (k : K) (v : V) (md : Nat) : BTree K V :=
  ⟨Node.mk [⟨k, v⟩] none, md⟩

/-- The quantity `self.min_deg * 2 - 1` computed in the source's `uint`
(usize) arithmetic, i.e. with wrapping subtraction modulo `2 ^ 64`. -/
def usizeUb (md : Nat) : Nat := (md * 2 % 2 ^ 64 + (2 ^ 64 - 1)) % 2 ^ 64

/-- Shallow embedding of `BTree::insert` from btree.rs.  When the root is
full (its length at least `min_deg * 2 - 1`) the source copies the root's
elements and children with order-preserving pop/reverse loops into a fresh
boxed node, makes that node the sole child of a new empty root, calls
`split_child(0, ub)` on the new root and then inserts into it; otherwise
it inserts into the existing root directly. -/
def BTree.insert [Ord K] (fuel : Nat) (t : BTree K V) (k : K) (v : V) :
    Option (BTree K V) :=
  if usizeUb t.min_deg ≤ t.root.elts.length then
    match (Node.mk [] (some [t.root])).split_child 0 (usizeUb t.min_deg) with
    | none => none
    | some r1 =>
      match Node.insert_nonfull fuel r1 k v (usizeUb t.min_deg) with
      | none => none
      | some r2 => some ⟨r2, t.min_deg⟩
  else
    match Node.insert_nonfull fuel t.root k v (usizeUb t.min_deg) with
    | none => none
    | some r2 => some ⟨r2, t.min_deg⟩

mutual
/-- All key-value pairs stored in the subtree rooted at a node: the node's
own elements followed by the contents of its children.  Used only up to
permutation, i.e. as the multiset of pairs of the subtree. -/
def Node.contents : Node K V → List (Elt K V)
  | .mk elts none => elts
  | .mk elts (some cs) => elts ++ contentsList cs
termination_by n => sizeOf n

/-- Concatenated subtree contents of a list of nodes. -/
def contentsList : List (Node K V) → List (Elt K V)
  | [] => []
  | c :: cs => c.contents ++ contentsList cs
termination_by l => sizeOf l
end

/-! ### Concrete fixtures

The nodes and insertion sequences used by the concrete theorems below.
`exNode1` is the parent of `split_child_test_1` in btree.rs (an exactly
full middle child of `2t - 1 = 3` elements for `t = 2`); `exNode5` is the
tree of `insert_test_5` (spec scenario 3: a pre-full middle child of 4
elements); values are numbered consecutively in place of the source's
strings. -/

/-- Parent node of `split_child_test_1`: elements `3, 7`, children
`[1 2] [4 5 6] [8 9]`. -/
def exNode1 : Node Int Int :=
  Node.mk [⟨3, 0⟩, ⟨7, 1⟩]
    (some [Node.mk [⟨1, 2⟩, ⟨2, 3⟩] none,
           Node.mk [⟨4, 4⟩, ⟨5, 5⟩, ⟨6, 6⟩] none,
           Node.mk [⟨8, 7⟩, ⟨9, 8⟩] none])

/-- Root node of `insert_test_5` (spec scenario 3): elements `2, 8`,
children `[0 1] [3 4 6 7] [9 10]`. -/
def exNode5 : Node Int Int :=
  Node.mk [⟨2, 0⟩, ⟨8, 1⟩]
    (some [Node.mk [⟨0, 2⟩, ⟨1, 3⟩] none,
           Node.mk [⟨3, 4⟩, ⟨4, 5⟩, ⟨6, 6⟩, ⟨7, 7⟩] none,
           Node.mk [⟨9, 8⟩, ⟨10, 9⟩] none])

/-- A two-element leaf whose first key equals the searched key `5`. -/
def exLeaf58 : Node Int Int := Node.mk [⟨5, 0⟩, ⟨8, 1⟩] none

/-- The reachable tree `construct(1, ·, 2)`; `insert 2`; `insert 3`:
a full leaf root holding keys `1, 2, 3` (`2t - 1 = 3` for `t = 2`). -/
def fullRootTree : Option (BTree Int Int) :=
  (BTree.insert 20 (BTree.new 1 0 2) 2 1).bind
    (fun t => BTree.insert 20 t 3 2)

/-- The previous tree after one more `insert 4`, which triggers the root
split. -/
def rootSplitTree : Option (BTree Int Int) :=
  fullRootTree.bind (fun t => BTree.insert 20 t 4 3)

/-- The reachable tree `construct(5, 0, 2)`; `insert (8, 1)`: a leaf root
holding `(5, 0), (8, 1)`. -/
def leaf58Tree : Option (BTree Int Int) := BTree.insert 20 (BTree.new 5 0 2) 8 1

/-- The previous tree after re-inserting the existing key `5` with the new
value `2`. -/
def reinsertTree : Option (BTree Int Int) :=
  leaf58Tree.bind (fun t => BTree.insert 20 t 5 2)

/-! ### Basic lemmas about the embedding -/

@[simp] theorem elts_mk (e : List (Elt K V)) (c : Option (List (Node K V))) :
    (Node.mk e c).elts = e := rfl

@[simp] theorem children_mk (e : List (Elt K V)) (c : Option (List (Node K V))) :
    (Node.mk e c).children = c := rfl

@[simp] theorem contents_leaf (e : List (Elt K V)) :
    (Node.mk e none).contents = e := by
  rw [Node.contents]

@[simp] theorem contents_branch (e : List (Elt K V)) (cs : List (Node K V)) :
    (Node.mk e (some cs)).contents = e ++ contentsList cs := by
  rw [Node.contents]

@[simp] theorem contentsList_nil : contentsList ([] : List (Node K V)) = [] := by
  rw [contentsList]

@[simp] theorem contentsList_cons (c : Node K V) (cs : List (Node K V)) :
    contentsList (c :: cs) = c.contents ++ contentsList cs := by
  rw [contentsList]

theorem contentsList_append (l₁ l₂ : List (Node K V)) :
    contentsList (l₁ ++ l₂) = contentsList l₁ ++ contentsList l₂ := by
  induction l₁ with
  | nil => simp
  | cons c cs ih => simp [ih]

section ListHelpers

variable {α : Type}

theorem get?_append_cons (l₁ l₂ : List α) (x : α) :
    (l₁ ++ x :: l₂).get? l₁.length = some x := by
  induction l₁ with
  | nil => rfl
  | cons y ys ih => simpa using ih

theorem set_append_cons (l₁ l₂ : List α) (x a : α) :
    (l₁ ++ x :: l₂).set l₁.length a = l₁ ++ a :: l₂ := by
  induction l₁ with
  | nil => rfl
  | cons y ys ih => simp [List.set, ih]

theorem insertIdx_append_cons (l₁ l₂ : List α) (a : α) :
    (l₁ ++ l₂).insertIdx l₁.length a = l₁ ++ a :: l₂ := by
  induction l₁ with
  | nil => rfl
  | cons y ys ih => simp [List.insertIdx_succ_cons, ih]

theorem insertIdx_succ_append_cons (l₁ l₂ : List α) (x a : α) :
    (l₁ ++ x :: l₂).insertIdx (l₁.length + 1) a = l₁ ++ x :: a :: l₂ := by
  induction l₁ with
  | nil => simp [List.insertIdx_succ_cons]
  | cons y ys ih => simp [List.insertIdx_succ_cons, ih]

theorem insertIdx_perm (a : α) : ∀ (n : Nat) (l : List α), n ≤ l.length →
    (l.insertIdx n a).Perm (a :: l)
  | 0, l, _ => by simp
  | n + 1, [], h => by simp at h
  | n + 1, x :: xs, h => by
    rw [List.insertIdx_succ_cons]
    exact ((insertIdx_perm a n xs (Nat.le_of_succ_le_succ h)).cons x).trans
      (List.Perm.swap a x xs)

end ListHelpers

/-- C8 (amended): the guard on the first line of `split_child` makes the
operation a no-op — the parent and all its descendants are returned
completely unchanged — exactly when the target child holds *fewer than*
`ub = 2t - 1` elements; a child holding `2t - 1` or more elements is
split, so the claim's "does not hold exactly `2t - 1`" guard is too
strong. -/
theorem split_child_skips_nonfull_child (self : Node K V)
    (cs : List (Node K V)) (child : Node K V) (i ub : Nat)
    (hc : self.children = some cs) (hi : cs.get? i = some child)
    (hlt : child.elts.length < ub) :
    self.split_child i ub = some self := by
  rw [List.get?_eq_getElem?] at hi
  unfold Node.split_child
  simp [hc, hi, hlt]

/-- Unfolding lemma for a successful split of a full child located between
`csl` and `csr`: the computed result, read off from the source.  The
drained original child stays behind at position `i + 2`. -/
theorem split_child_eq (elts ce : List (Elt K V))
    (csl csr : List (Node K V)) (cco : Option (List (Node K V))) (ub : Nat)
    (hub : ub ≤ ce.length) (hM : ce.length - ce.length / 2 - 1 < ce.length)
    (hie : csl.length ≤ elts.length) :
    (Node.mk elts (some (csl ++ Node.mk ce cco :: csr))).split_child
        csl.length ub =
      some (Node.mk (elts.insertIdx csl.length ce[ce.length - ce.length / 2 - 1])
        (some (csl ++
          Node.mk (ce.take (ce.length - ce.length / 2 - 1))
            (cco.map (fun g => g.take (g.length - g.length / 2))) ::
          Node.mk (ce.drop (ce.length - ce.length / 2))
            (cco.map (fun g => g.drop (g.length - g.length / 2))) ::
          Node.mk [] (cco.map (fun _ => [])) :: csr))) := by
  have hmid : ce.get? (ce.length - ce.length / 2 - 1) =
      some ce[ce.length - ce.length / 2 - 1] := by
    rw [List.get?_eq_getElem?]
    exact List.getElem?_eq_getElem hM
  unfold Node.split_child
  simp only [children_mk, elts_mk, get?_append_cons, hmid,
    if_neg (Nat.not_lt.mpr hub), if_pos hie, set_append_cons,
    insertIdx_append_cons, insertIdx_succ_append_cons]
  cases cco <;> rfl

/-- C10: a `split_child` call that actually performs a split (valid child
index, target at least `ub` elements, and no panic) does not duplicate or
drop any key-value pair: the resulting parent subtree holds exactly the
same multiset of pairs as before.  The target child's elements are
redistributed into the left node, the right node and the promoted median,
its grandchildren into the two new nodes, and the drained original child
that stays behind is empty. -/
theorem split_child_preserves_contents (elts ce : List (Elt K V))
    (csl csr : List (Node K V)) (cco : Option (List (Node K V))) (ub : Nat)
    (hub : ub ≤ ce.length) (h0 : ce ≠ []) (hie : csl.length ≤ elts.length) :
    ∃ n₂,
      (Node.mk elts (some (csl ++ Node.mk ce cco :: csr))).split_child
          csl.length ub = some n₂ ∧
      n₂.contents.Perm
        (Node.mk elts (some (csl ++ Node.mk ce cco :: csr))).contents := by
  have hlen : 0 < ce.length := List.length_pos_iff_ne_nil.mpr h0
  have hM : ce.length - ce.length / 2 - 1 < ce.length := by omega
  refine ⟨_, split_child_eq elts ce csl csr cco ub hub hM hie, ?_⟩
  have hce : ce = ce.take (ce.length - ce.length / 2 - 1) ++
      ce[ce.length - ce.length / 2 - 1] :: ce.drop (ce.length - ce.length / 2) := by
    have h1 : ce.length - ce.length / 2 - 1 + 1 = ce.length - ce.length / 2 := by
      omega
    conv_lhs => rw [← List.take_append_drop (ce.length - ce.length / 2 - 1) ce]
    rw [List.drop_eq_getElem_cons hM, h1]
  have hIns : ((elts.insertIdx csl.length ce[ce.length - ce.length / 2 - 1]) :
      Multiset (Elt K V)) = ↑(ce[ce.length - ce.length / 2 - 1] :: elts) :=
    Multiset.coe_eq_coe.mpr (insertIdx_perm _ _ _ hie)
  rw [← Multiset.coe_eq_coe]
  cases cco with
  | none =>
    simp only [Option.map_none', contents_branch, contents_leaf,
      contentsList_append, contentsList_cons, contentsList_nil]
    conv_rhs => rw [hce]
    simp only [← Multiset.coe_add, hIns, ← Multiset.cons_coe,
      ← Multiset.singleton_add, Multiset.coe_nil]
    abel
  | some g =>
    simp only [Option.map_some', contents_branch, contents_leaf,
      contentsList_append, contentsList_cons, contentsList_nil]
    conv_rhs =>
      rw [hce, ← List.take_append_drop (g.length - g.length / 2) g,
        contentsList_append]
    simp only [← Multiset.coe_add, hIns, ← Multiset.cons_coe,
      ← Multiset.singleton_add, Multiset.coe_nil]
    abel

/-! ### Claim theorems on concrete inputs -/

/-- C1: evaluation of `split_child` at `exNode1` (the parent of
`split_child_test_1`, middle child exactly full with `2t - 1 = 3`
elements for `t = 2`).  Contrary to the claim, the full child is not
removed from `parent.children`: the parent ends with 3 elements but 5
children — the two new nodes plus the drained original left behind empty
at index 3 — so `children.length = elements.length + 2`, not `+ 1`. -/
theorem c1_split_child_leaves_drained_child :
    (exNode1.split_child 1 3).map
        (fun n => (n.elts.map Elt.key,
          n.children.map (fun cs => cs.map (fun c => c.elts.map Elt.key)))) =
      some ([3, 5, 7], some [[1, 2], [4], [6], [], [8, 9]]) := by rfl

/-- C2: the tree reached by `construct(1, ·, 2)` and inserting keys
2, 3, 4 violates the claimed invariants: the root split of the full root
`[1 2 3]` leaves a third, empty child under the new root, so a non-root
node holds `0 < t - 1 = 1` elements and the internal root has 3 children
but 1 element (`children.length ≠ elements.length + 1`). -/
theorem c2_reachable_tree_breaks_invariants :
    rootSplitTree.map
        (fun t => (t.min_deg, t.root.elts.map Elt.key,
          t.root.children.map (fun cs => cs.map (fun c => c.elts.length)))) =
      some (2, [2], some [1, 2, 0]) := by rfl

/-- C3: the reachable tree `construct(5, 0, 2)`; `insert (8, 1)`;
`insert (5, 2)` ends as a leaf root whose element keys are `[5, 5, 8]`:
the in-order traversal of the tree is not strictly ascending, and key 5
appears in two elements (the inverted comparisons in `bsearch_node`
return index 1 for the present key 5, so the leaf case inserts a
duplicate instead of updating in place). -/
theorem c3_reachable_tree_has_duplicate_key :
    reinsertTree.map
        (fun t => (t.root.elts.map Elt.key, t.root.children.isSome)) =
      some ([5, 5, 8], false) ∧
    ¬ ([5, 5, 8] : List Int).Pairwise (· < ·) :=
  ⟨rfl, by decide⟩

/-- C4: at the tree of spec scenario 3 (`insert_test_5`), inserting key 5
splits the full middle child and promotes the median 4 to position 1;
since `5 > 4` the claim requires descent into child `i + 1 = 2` (the
right node `[6 7]`), but the code increments the index only when
`elements[i].key` compares *greater* than the key — the reverse test — so
it descends into child `i = 1` and key 5 ends up in the left node `[3]`:
the children become `[0 1] [3 5] [6 7] [] [9 10]`. -/
theorem c4_descends_by_reversed_comparison :
    (Node.insert_nonfull 20 exNode5 5 10 3).map
        (fun n => (n.elts.map Elt.key,
          n.children.map (fun cs => cs.map (fun c => c.elts.map Elt.key)))) =
      some ([2, 4, 8], some [[0, 1], [3, 5], [6, 7], [], [9, 10]]) := by rfl

/-- C5: on the node with elements `(5, ·), (8, ·)` — non-empty with
strictly ascending keys — searching for the present key 5 returns index
1, which satisfies neither arm of the claimed contract: `elements[1].key`
is 8, not 5, and the element before position 1 has key 5, which is not
less than the searched key. -/
theorem c5_bsearch_node_breaks_contract :
    exLeaf58.elts.map Elt.key = [5, 8] ∧
    (exLeaf58.elts.map Elt.key).Pairwise (· < ·) ∧
    exLeaf58.bsearch_node 5 = some 1 ∧
    ¬ (((exLeaf58.elts.get? 1).map Elt.key = some 5) ∨
       ((∀ e ∈ exLeaf58.elts.take 1, e.key < 5) ∧
        (∀ e ∈ exLeaf58.elts.drop 1, 5 < e.key))) := by decide

/-- C6: re-inserting the existing key 5 (with new value 2) into the
reachable two-element tree `(5, 0), (8, 1)` does not merely update the
value: a third element is inserted, the element count changes from 2 to
3, and the original pair `(5, 0)` stays untouched next to the new
`(5, 2)`. -/
theorem c6_reinsert_existing_key_changes_shape :
    leaf58Tree.map (fun t => t.root.elts.length) = some 2 ∧
    reinsertTree.map
        (fun t => t.root.elts.map (fun e => (e.key, e.value))) =
      some [(5, 0), (5, 2), (8, 1)] :=
  ⟨rfl, rfl⟩

/-- C7: immediately before the fourth insert the root is a full leaf
(`3 = 2t - 1` elements), and the insert does perform a root split that
grows the height by one; but the new root ends up with *three* children
of sizes 1, 2 and 0 — not exactly two children of `t - 1 = 1` elements
each — because the drained old root is left behind as an empty third
child. -/
theorem c7_root_split_leaves_three_children :
    fullRootTree.map
        (fun t => (t.root.elts.length, t.root.children.isSome)) =
      some (3, false) ∧
    rootSplitTree.map
        (fun t => t.root.children.map (fun cs => cs.map (fun c => c.elts.length))) =
      some (some [1, 2, 0]) :=
  ⟨rfl, rfl⟩

/-- C8 counterexample: in `exNode5` the target child at index 1 holds
4 elements — not exactly `2t - 1 = 3` — yet `split_child` is not a no-op:
the parent comes back changed (its element count grows from 2 to 3),
because the source guard only skips children holding fewer than `ub`
elements. -/
theorem c8_counterexample_overfull_child_is_split :
    (exNode5.children.map (fun cs => cs.map (fun c => c.elts.length)) =
      some [2, 4, 2]) ∧
    exNode5.split_child 1 3 ≠ some exNode5 := by
  refine ⟨rfl, fun h => ?_⟩
  exact absurd (congrArg (Option.map (fun n => n.elts.length)) h) (by decide)

/-- Witness for the amended C8 theorem at a concrete input: child 0 of
`exNode5` holds 2 < 3 elements, and `split_child` returns the parent
unchanged. -/
theorem c8_noop_witness : exNode5.split_child 0 3 = some exNode5 :=
  split_child_skips_nonfull_child exNode5 _ _ 0 3 rfl rfl (by decide)

/-- C9: `BTree::new` performs no validation of the minimum degree: at the
degenerate `minDegree = 1 < 2` it succeeds and returns a `BTree` carrying
`min_deg = 1` and the single-element root, instead of rejecting the
construction with an explicit error. -/
theorem c9_new_accepts_degenerate_min_degree :
    (BTree.new (1 : Int) (0 : Int) 1).min_deg = 1 ∧
    (BTree.new (1 : Int) (0 : Int) 1).root.elts.map
        (fun e => (e.key, e.value)) = [(1, 0)] :=
  ⟨rfl, rfl⟩

/-- Witness for the C10 theorem: the split of `split_child_test_1` —
parent elements `3, 7`, full middle child `4 5 6` between children
`1 2` and `8 9` — succeeds and preserves the subtree contents up to
permutation. -/
theorem c10_witness :
    ∃ n₂,
      (Node.mk ([⟨3, 0⟩, ⟨7, 1⟩] : List (Elt Int Int))
          (some ([Node.mk [⟨1, 2⟩, ⟨2, 3⟩] none] ++
            Node.mk [⟨4, 4⟩, ⟨5, 5⟩, ⟨6, 6⟩] none ::
            [Node.mk [⟨8, 7⟩, ⟨9, 8⟩] none]))).split_child
        ([Node.mk [⟨1, 2⟩, ⟨2, 3⟩] none] : List (Node Int Int)).length 3 =
        some n₂ ∧
      n₂.contents.Perm
        (Node.mk ([⟨3, 0⟩, ⟨7, 1⟩] : List (Elt Int Int))
          (some ([Node.mk [⟨1, 2⟩, ⟨2, 3⟩] none] ++
            Node.mk [⟨4, 4⟩, ⟨5, 5⟩, ⟨6, 6⟩] none ::
            [Node.mk [⟨8, 7⟩, ⟨9, 8⟩] none]))).contents :=
  split_child_preserves_contents [⟨3, 0⟩, ⟨7, 1⟩] [⟨4, 4⟩, ⟨5, 5⟩, ⟨6, 6⟩]
    [Node.mk [⟨1, 2⟩, ⟨2, 3⟩] none] [Node.mk [⟨8, 7⟩, ⟨9, 8⟩] none] none 3
    (by decide) (by decide) (by decide)

end BTreeRs
